import Mathlib

/-!
Verification development for the `tanint/go-eda` event pipeline.

The Go sources are shallowly embedded:
* the JSON wire format of `encoding/json` is modelled by a `Json` value type
  together with an executable compact renderer (mirroring `json.Marshal`
  output) and an executable recursive-descent reader (mirroring the syntax
  accepted by `json.Unmarshal`);
* the event envelope (`pkg/events`), the producer (`internal/kafka` producer
  file), the consumer loop (`internal/kafka` consumer file) and the
  order-created handler (`internal/handlers`) are embedded as pure functions.
  External input (broker poll results, delivery-report races, handler and
  commit outcomes, clock samples) is passed in as explicit arguments.

Modelling conventions, stated once:
* Go byte slices and strings are modelled as `List Char` / `String`;
* JSON numbers are modelled as integers (`Int`); Go `float64` payload fields
  are embedded at integral values, since floating point has no exact shallow
  embedding and none of the verified statements depends on float rounding;
* Go `time.Time` values are modelled by their RFC3339 wire text (a `String`);
  the standard-library codec for `time.Time` is not part of this repository,
  so decoding accepts any JSON string as a timestamp value.
-/

namespace GoEda

/-! ### JSON values (`encoding/json` data model) -/

/-- A JSON value as handled by Go `encoding/json`.  An `interface\x7b\x7d`
value produced by generic decoding is exactly such a value. -/
inductive Json where
  | null : Json
  | bool : Bool → Json
  | num : Int → Json
  | str : String → Json
  | arr : List Json → Json
  | obj : List (String × Json) → Json

mutual

/-- Size measure used for fuel bounds and induction. -/
def jsonSize : Json → Nat
  | .arr l => 1 + jsonListSize l
  | .obj l => 1 + jsonObjSize l
  | _ => 1

def jsonListSize : List Json → Nat
  | [] => 0
  | j :: rest => 1 + jsonSize j + jsonListSize rest

def jsonObjSize : List (String × Json) → Nat
  | [] => 0
  | p :: rest => 1 + jsonSize p.2 + jsonObjSize rest

end

/-! ### Rendering (`json.Marshal` output format) -/

def lbrace : Char := Char.ofNat 123

def rbrace : Char := Char.ofNat 125

def hexTable : List Char := "0123456789abcdef".data

def hexDigitChar (n : Nat) : Char := hexTable.getD n '0'

/-- Four-digit hex rendering used by Go in `\u`-escapes. -/
def toHex4 (n : Nat) : List Char :=
  [hexDigitChar (n / 4096 % 16), hexDigitChar (n / 256 % 16),
   hexDigitChar (n / 16 % 16), hexDigitChar (n % 16)]

def isWsChar (c : Char) : Bool := c = ' ' || c = '\t' || c = '\n' || c = '\r'

def isDigitChar (c : Char) : Bool := 48 ≤ c.toNat && c.toNat ≤ 57

def digitChar (n : Nat) : Char := "0123456789".data.getD n '0'

/-- Decimal digits of a natural number, most significant first. -/
def natDigits (n : Nat) : List Char :=
  if _h : n < 10 then [digitChar n]
  else natDigits (n / 10) ++ [digitChar (n % 10)]
decreasing_by exact Nat.div_lt_self (by omega) (by omega)

/-- Go renders integral numeric values as an optional minus sign and digits. -/
def intChars (n : Int) : List Char :=
  if n < 0 then '-' :: natDigits n.natAbs else natDigits n.natAbs

/-- Per-character escaping of Go `encoding/json` string encoding: quote,
backslash, the short control escapes, other control characters, and the
HTML-escaped characters are written as escapes; everything else literally. -/
def escapeChar (c : Char) : List Char :=
  if c = '"' then ['\\', '"']
  else if c = '\\' then ['\\', '\\']
  else if c = '\n' then ['\\', 'n']
  else if c = '\r' then ['\\', 'r']
  else if c = '\t' then ['\\', 't']
  else if c.toNat < 32 || c = '<' || c = '>' || c = '&'
       || c.toNat = 8232 || c.toNat = 8233 then
    '\\' :: 'u' :: toHex4 c.toNat
  else [c]

def renderString (s : String) : List Char :=
  '"' :: (s.data.map escapeChar).flatten ++ ['"']

mutual

/-- Compact rendering of a JSON value, as produced by `json.Marshal`. -/
def renderJson : Json → List Char
  | .str s => renderString s
  | .num n => intChars n
  | .bool b => if b then ['t', 'r', 'u', 'e'] else ['f', 'a', 'l', 's', 'e']
  | .null => ['n', 'u', 'l', 'l']
  | .arr [] => ['[', ']']
  | .arr (j :: rest) => '[' :: (renderJson j ++ renderElems rest) ++ [']']
  | .obj [] => [lbrace, rbrace]
  | .obj (p :: rest) => lbrace :: (renderPair p ++ renderMembers rest) ++ [rbrace]

def renderElems : List Json → List Char
  | [] => []
  | j :: rest => ',' :: (renderJson j ++ renderElems rest)

def renderPair : String × Json → List Char
  | (k, v) => renderString k ++ ':' :: renderJson v

def renderMembers : List (String × Json) → List Char
  | [] => []
  | p :: rest => ',' :: (renderPair p ++ renderMembers rest)

end

/-! ### Reading (`json.Unmarshal` syntax) -/

def skipWs : List Char → List Char
  | c :: rest => if isWsChar c then skipWs rest else c :: rest
  | [] => []

def parseHex1 (c : Char) : Option Nat :=
  if 48 ≤ c.toNat && c.toNat ≤ 57 then some (c.toNat - 48)
  else if 97 ≤ c.toNat && c.toNat ≤ 102 then some (c.toNat - 87)
  else if 65 ≤ c.toNat && c.toNat ≤ 70 then some (c.toNat - 55)
  else none

/-- Character from a `\u` escape code; an invalid scalar value becomes the
replacement character, as in Go. -/
def charOfCode (n : Nat) : Char :=
  if Nat.isValidChar n then Char.ofNat n else Char.ofNat 65533

mutual

/-- Body of a JSON string after the opening quote, accumulator-style. -/
def parseStringBody : List Char → List Char → Option (String × List Char)
  | [], _ => none
  | c :: rest, acc =>
    if c = '"' then some (String.mk acc.reverse, rest)
    else if c = '\\' then parseEscape rest acc
    else if c.toNat < 32 then none
    else parseStringBody rest (c :: acc)

/-- A string escape sequence after the backslash. -/
def parseEscape : List Char → List Char → Option (String × List Char)
  | [], _ => none
  | e :: rest2, acc =>
    if e = 'u' then
      match rest2 with
      | h1 :: h2 :: h3 :: h4 :: rest3 =>
        match parseHex1 h1, parseHex1 h2, parseHex1 h3, parseHex1 h4 with
        | some a, some b, some c2, some d =>
          parseStringBody rest3 (charOfCode (a * 4096 + b * 256 + c2 * 16 + d) :: acc)
        | _, _, _, _ => none
      | _ => none
    else if e = '"' then parseStringBody rest2 ('"' :: acc)
    else if e = '\\' then parseStringBody rest2 ('\\' :: acc)
    else if e = '/' then parseStringBody rest2 ('/' :: acc)
    else if e = 'b' then parseStringBody rest2 (Char.ofNat 8 :: acc)
    else if e = 'f' then parseStringBody rest2 (Char.ofNat 12 :: acc)
    else if e = 'n' then parseStringBody rest2 ('\n' :: acc)
    else if e = 'r' then parseStringBody rest2 ('\r' :: acc)
    else if e = 't' then parseStringBody rest2 ('\t' :: acc)
    else none

end

def expectChars : List Char → List Char → Option (List Char)
  | [], s => some s
  | c :: cs, d :: s => if d = c then expectChars cs s else none
  | _ :: _, [] => none

/-- Reads a maximal run of decimal digits, accumulating their value. -/
def readDigits : List Char → Nat → Nat × List Char
  | c :: rest, acc =>
    if isDigitChar c then readDigits rest (acc * 10 + (c.toNat - 48))
    else (acc, c :: rest)
  | [], acc => (acc, [])

mutual

/-- One JSON value, fuelled recursive descent.  Returns the value and the
unconsumed remainder. -/
def parseValue : Nat → List Char → Option (Json × List Char)
  | 0, _ => none
  | fuel + 1, s =>
    match skipWs s with
    | [] => none
    | c :: rest =>
      if c = 'n' then (expectChars ['u', 'l', 'l'] rest).map fun r => (Json.null, r)
      else if c = 't' then (expectChars ['r', 'u', 'e'] rest).map fun r => (Json.bool true, r)
      else if c = 'f' then (expectChars ['a', 'l', 's', 'e'] rest).map fun r => (Json.bool false, r)
      else if c = '"' then (parseStringBody rest []).map fun p => (Json.str p.1, p.2)
      else if c = '[' then
        let r2 := skipWs rest
        if r2.head? = some ']' then some (Json.arr [], r2.tail)
        else (parseElems fuel r2).map fun p => (Json.arr p.1, p.2)
      else if c = lbrace then
        let r2 := skipWs rest
        if r2.head? = some rbrace then some (Json.obj [], r2.tail)
        else (parseMembers fuel r2).map fun p => (Json.obj p.1, p.2)
      else if c = '-' then
        match rest with
        | d :: _ =>
          if isDigitChar d then
            let p := readDigits rest 0
            some (Json.num (-(p.1 : Int)), p.2)
          else none
        | [] => none
      else if isDigitChar c then
        let p := readDigits (c :: rest) 0
        some (Json.num (p.1 : Int), p.2)
      else none

/-- Elements of a non-empty array, after the opening bracket. -/
def parseElems : Nat → List Char → Option (List Json × List Char)
  | 0, _ => none
  | fuel + 1, s =>
    match parseValue fuel s with
    | none => none
    | some (j, r) =>
      match skipWs r with
      | [] => none
      | c :: r2 =>
        if c = ',' then
          match parseElems fuel r2 with
          | some (l, r3) => some (j :: l, r3)
          | none => none
        else if c = ']' then some ([j], r2)
        else none

/-- Members of a non-empty object, after the opening brace. -/
def parseMembers : Nat → List Char → Option (List (String × Json) × List Char)
  | 0, _ => none
  | fuel + 1, s =>
    match skipWs s with
    | [] => none
    | c :: rest =>
      if c = '"' then
        match parseStringBody rest [] with
        | none => none
        | some (k, r1) =>
          match skipWs r1 with
          | [] => none
          | c2 :: r2 =>
            if c2 = ':' then
              match parseValue fuel r2 with
              | none => none
              | some (v, r3) =>
                match skipWs r3 with
                | [] => none
                | c3 :: r4 =>
                  if c3 = ',' then
                    match parseMembers fuel r4 with
                    | some (l, r5) => some ((k, v) :: l, r5)
                    | none => none
                  else if c3 = rbrace then some ([(k, v)], r4)
                  else none
            else none
      else none

end

/-- Top-level JSON read: one value and nothing but trailing whitespace,
mirroring `json.Unmarshal`'s syntax check. -/
def parseJson (s : List Char) : Option Json :=
  match parseValue (s.length + 1) s with
  | some (j, rest) => if (skipWs rest).isEmpty then some j else none
  | none => none

def headNotDigit (l : List Char) : Prop := ∀ c, l.head? = some c → isDigitChar c = false

/-! ### Errors

Go `error` values arising in the embedded components, one constructor per
way an error is produced in the source.  `fmt.Errorf("...: %w", err)`
wrapping is modelled by the dedicated wrapping constructors. -/

inductive CtxError where
  | canceled
  | deadlineExceeded
deriving DecidableEq

inductive KafkaErrCode where
  | timedOut
  | other : Int → KafkaErrCode
deriving DecidableEq

inductive GoError where
  | kafkaErr : KafkaErrCode → String → GoError
  | ctx : CtxError → GoError
  | decodeErr : String → GoError
  | produceFailed : GoError → GoError
  | deliveryFailed : GoError → GoError
  | handlerFailed : GoError → GoError
  | subscribeFailed : GoError → GoError
  | errMsg : String → GoError
deriving DecidableEq

def isCtxErrorB : GoError → Bool
  | .ctx _ => true
  | _ => false

def isDeliveryErrorB : GoError → Bool
  | .deliveryFailed _ => true
  | _ => false

/-! ### Event envelope (`pkg/events/event.go`) -/

/-- The `Event` struct: `ID`, `Type`, `Timestamp`, `Data` with JSON tags
`id`, `type`, `timestamp`, `data`.  `Type` is the string-typed `EventType`;
`Timestamp` is modelled by its RFC3339 wire text; `Data` is the generic
`interface\x7b\x7d` payload, i.e. a JSON value. -/
structure Event where
  id : String
  type : String
  timestamp : String
  data : Json

def EventTypeOrderCreated : String := "order.created"

def EventTypeOrderConfirmed : String := "order.confirmed"

def EventTypeInventoryReserved : String := "inventory.reserved"

def EventTypeInventoryReleased : String := "inventory.released"

def EventTypeNotificationSent : String := "notification.sent"

/-- The zero `Event` value that `json.Unmarshal` starts from. -/
def zeroEvent : Event := ⟨"", "", "", Json.null⟩

def eventToJson (e : Event) : Json :=
  Json.obj [("id", Json.str e.id), ("type", Json.str e.type),
            ("timestamp", Json.str e.timestamp), ("data", e.data)]

/-- `(*Event).Marshal`: `json.Marshal` of the envelope struct. -/
def Marshal (e : Event) : List Char := renderJson (eventToJson e)

/-- One field-assignment step of `json.Unmarshal` into `Event`: keys are
matched against the JSON tags, a mismatched value type is an error, `null`
leaves the field unchanged, unknown keys are ignored. -/
def setEventField (e : Event) (k : String) (v : Json) : Except GoError Event :=
  if k = "id" then
    match v with
    | Json.str s => .ok { e with id := s }
    | Json.null => .ok e
    | _ => .error (GoError.decodeErr "cannot unmarshal value into string field id")
  else if k = "type" then
    match v with
    | Json.str s => .ok { e with type := s }
    | Json.null => .ok e
    | _ => .error (GoError.decodeErr "cannot unmarshal value into string field type")
  else if k = "timestamp" then
    match v with
    | Json.str s => .ok { e with timestamp := s }
    | Json.null => .ok e
    | _ => .error (GoError.decodeErr "cannot unmarshal value into time field timestamp")
  else if k = "data" then .ok { e with data := v }
  else .ok e

/-- `json.Unmarshal` of a decoded JSON document into `Event`: a JSON object
assigns its members in order (duplicates overwrite), `null` yields the zero
struct, any other document shape is an error. -/
def eventFromJson : Json → Except GoError Event
  | Json.null => .ok zeroEvent
  | Json.obj kvs => kvs.foldlM (fun e p => setEventField e p.1 p.2) zeroEvent
  | _ => .error (GoError.decodeErr "cannot unmarshal value into Event")

/-- `UnmarshalEvent`: `json.Unmarshal` of raw bytes into an `Event`; on any
error no event value is returned. -/
def UnmarshalEvent (bytes : List Char) : Except GoError Event :=
  match parseJson bytes with
  | none => .error (GoError.decodeErr "invalid JSON input")
  | some j => eventFromJson j

/-- The set of byte sequences that are well-formed encoded envelopes,
i.e. exact outputs of the envelope encoder. -/
def wellFormedEnvelopeBytes (s : List Char) : Prop := ∃ e : Event, Marshal e = s

/-! ### Order payloads (`internal/models/order.go`, `pkg/events/event.go`) -/

/-- `OrderItem`: `product_id`, `quantity`, `price` (float64 embedded at
integral values). -/
structure OrderItem where
  product_id : String
  quantity : Int
  price : Int

/-- `Order`: JSON tags `id`, `customer_id`, `items`, `total_price`,
`status`, `created_at`, `updated_at` (times by their RFC3339 text). -/
structure Order where
  id : String
  customer_id : String
  items : List OrderItem
  total_price : Int
  status : String
  created_at : String
  updated_at : String

/-- `OrderCreatedEvent`: a single `order` member. -/
structure OrderCreatedEvent where
  order : Order

def orderItemToJson (it : OrderItem) : Json :=
  Json.obj [("product_id", Json.str it.product_id), ("quantity", Json.num it.quantity),
            ("price", Json.num it.price)]

def orderToJson (o : Order) : Json :=
  Json.obj [("id", Json.str o.id), ("customer_id", Json.str o.customer_id),
            ("items", Json.arr (o.items.map orderItemToJson)),
            ("total_price", Json.num o.total_price), ("status", Json.str o.status),
            ("created_at", Json.str o.created_at), ("updated_at", Json.str o.updated_at)]

def orderCreatedToJson (e : OrderCreatedEvent) : Json :=
  Json.obj [("order", orderToJson e.order)]

def zeroOrderItem : OrderItem := ⟨"", 0, 0⟩

def zeroOrder : Order := ⟨"", "", [], 0, "", "", ""⟩

def setOrderItemField (it : OrderItem) (k : String) (v : Json) : Except GoError OrderItem :=
  if k = "product_id" then
    match v with
    | Json.str s => .ok { it with product_id := s }
    | Json.null => .ok it
    | _ => .error (GoError.decodeErr "cannot unmarshal value into string field product_id")
  else if k = "quantity" then
    match v with
    | Json.num n => .ok { it with quantity := n }
    | Json.null => .ok it
    | _ => .error (GoError.decodeErr "cannot unmarshal value into int field quantity")
  else if k = "price" then
    match v with
    | Json.num n => .ok { it with price := n }
    | Json.null => .ok it
    | _ => .error (GoError.decodeErr "cannot unmarshal value into float64 field price")
  else .ok it

def orderItemFromJson : Json → Except GoError OrderItem
  | Json.null => .ok zeroOrderItem
  | Json.obj kvs => kvs.foldlM (fun a p => setOrderItemField a p.1 p.2) zeroOrderItem
  | _ => .error (GoError.decodeErr "cannot unmarshal value into OrderItem")

def setOrderField (o : Order) (k : String) (v : Json) : Except GoError Order :=
  if k = "id" then
    match v with
    | Json.str s => .ok { o with id := s }
    | Json.null => .ok o
    | _ => .error (GoError.decodeErr "cannot unmarshal value into string field id")
  else if k = "customer_id" then
    match v with
    | Json.str s => .ok { o with customer_id := s }
    | Json.null => .ok o
    | _ => .error (GoError.decodeErr "cannot unmarshal value into string field customer_id")
  else if k = "items" then
    match v with
    | Json.arr l => (l.mapM orderItemFromJson).map fun is => { o with items := is }
    | Json.null => .ok o
    | _ => .error (GoError.decodeErr "cannot unmarshal value into slice field items")
  else if k = "total_price" then
    match v with
    | Json.num n => .ok { o with total_price := n }
    | Json.null => .ok o
    | _ => .error (GoError.decodeErr "cannot unmarshal value into float64 field total_price")
  else if k = "status" then
    match v with
    | Json.str s => .ok { o with status := s }
    | Json.null => .ok o
    | _ => .error (GoError.decodeErr "cannot unmarshal value into string field status")
  else if k = "created_at" then
    match v with
    | Json.str s => .ok { o with created_at := s }
    | Json.null => .ok o
    | _ => .error (GoError.decodeErr "cannot unmarshal value into time field created_at")
  else if k = "updated_at" then
    match v with
    | Json.str s => .ok { o with updated_at := s }
    | Json.null => .ok o
    | _ => .error (GoError.decodeErr "cannot unmarshal value into time field updated_at")
  else .ok o

def orderFromJson : Json → Except GoError Order
  | Json.null => .ok zeroOrder
  | Json.obj kvs => kvs.foldlM (fun a p => setOrderField a p.1 p.2) zeroOrder
  | _ => .error (GoError.decodeErr "cannot unmarshal value into Order")

def setOrderCreatedField (e : OrderCreatedEvent) (k : String) (v : Json) :
    Except GoError OrderCreatedEvent :=
  if k = "order" then
    match v with
    | Json.null => .ok e
    | _ => (orderFromJson v).map fun o => { e with order := o }
  else .ok e

def orderCreatedFromJson : Json → Except GoError OrderCreatedEvent
  | Json.null => .ok ⟨zeroOrder⟩
  | Json.obj kvs => kvs.foldlM (fun a p => setOrderCreatedField a p.1 p.2) ⟨zeroOrder⟩
  | _ => .error (GoError.decodeErr "cannot unmarshal value into OrderCreatedEvent")

/-- The second, type-directed payload decode of `HandleOrderCreated`:
`json.Marshal(event.Data)` followed by `json.Unmarshal` into
`OrderCreatedEvent`. -/
def decodeOrderCreatedData (data : Json) : Except GoError OrderCreatedEvent :=
  match parseJson (renderJson data) with
  | none => .error (GoError.decodeErr "invalid JSON input")
  | some j => orderCreatedFromJson j

/-! ### Event id generation (`generateEventID`, `randomString`) -/

/-- One `time.Now()` sample: the `UnixNano()` reading and the
`"20060102150405"` rendering of the same instant (calendar formatting is
outside this repository and kept abstract as the sampled text). -/
structure GoTime where
  unixNano : Int
  fmtSeconds : String
deriving DecidableEq

def letters : List Char :=
  "abcdefghijklmnopqrstuvwxyzABCDEFGHIJKLMNOPQRSTUVWXYZ0123456789".data

/-- `randomString(n)`: every byte is `letters[time.Now().UnixNano() % 62]`,
one fresh clock sample per byte and no other entropy source.  `clock i` is
the i-th `time.Now()` call made inside the loop. -/
def randomString (clock : Nat → GoTime) (n : Nat) : String :=
  String.mk ((List.range n).map fun i => letters.getD ((clock i).unixNano.emod 62).toNat 'a')

/-- `generateEventID`: seconds-resolution prefix from the first clock sample,
then `randomString(8)` consuming eight further clock samples. -/
def generateEventID (clock : Nat → GoTime) : String :=
  (clock 0).fmtSeconds ++ "-" ++ randomString (fun i => clock (i + 1)) 8

/-- A clock whose nine samples during one call all land in the same tick. -/
def frozenClock : Nat → GoTime := fun _ => ⟨1700000000000000000, "20231114221320"⟩

/-! ### Producer (`internal/kafka` producer, `Publish`) -/

/-- Which case of the `select` in `Publish` fires first: a delivery report on
the private channel (`some e` = `TopicPartition.Error`), or the caller's
context being done. -/
inductive DeliverySelect where
  | report : Option GoError → DeliverySelect
  | ctxDone : CtxError → DeliverySelect

structure PublishResult where
  err : Option GoError
  produceCalls : Nat
deriving DecidableEq

/-- `Producer.Publish`: one `Produce` call; on enqueue failure the wrapped
error; otherwise block on the select between the delivery report and the
caller's context. -/
def Publish (produceErr : Option GoError) (sel : DeliverySelect) : PublishResult :=
  match produceErr with
  | some e => ⟨some (GoError.produceFailed e), 1⟩
  | none =>
    match sel with
    | .report (some e) => ⟨some (GoError.deliveryFailed e), 1⟩
    | .report none => ⟨none, 1⟩
    | .ctxDone ce => ⟨some (GoError.ctx ce), 1⟩

/-! ### Consumer (`internal/kafka` consumer) -/

/-- A broker-delivered record (`kafka.Message` as used by the consumer). -/
structure KMessage where
  topic : String
  partition : Int
  offset : Int
  key : List Char
  value : List Char
deriving DecidableEq

/-- `MessageHandler` outcome for a record; the per-record timeout context is
abstracted into the outcome. -/
abbrev MessageHandler := KMessage → Option GoError

/-- Error/warn log records emitted by the consumer loop (info/debug logging
is not modelled). -/
inductive LogEntry where
  | warnNoHandler : String → LogEntry
  | errReading : GoError → LogEntry
  | errProcessing : GoError → KMessage → LogEntry
  | errCommitting : GoError → String → LogEntry
deriving DecidableEq

/-- `c.handlers` map lookup (registrations prepend, first match wins, which
matches later `RegisterHandler` calls overwriting earlier ones). -/
def lookupHandler : List (String × MessageHandler) → String → Option MessageHandler
  | [], _ => none
  | (t, h) :: rest, topic => if t = topic then some h else lookupHandler rest topic

/-- `Consumer.processMessage`: look up the handler by the record's topic; a
missing handler is logged and the record skipped with a nil error; a handler
error is wrapped.  Returns the Go result together with the log records the
call emits. -/
def processMessage (handlers : List (String × MessageHandler)) (m : KMessage) :
    Option GoError × List LogEntry :=
  match lookupHandler handlers m.topic with
  | none => (none, [LogEntry.warnNoHandler m.topic])
  | some h =>
    match h m with
    | some e => (some (GoError.handlerFailed e), [])
    | none => (none, [])

/-- What one `ReadMessage(100ms)` poll produced: an error with its kafka
code, or a record (paired with the outcome of `CommitMessage`, should the
loop attempt to commit it). -/
inductive PollResult where
  | readErr : KafkaErrCode → String → PollResult
  | msg : KMessage → Option GoError → PollResult

/-- One iteration's external input: either the loop observes `ctx.Done()` in
the `select`, or it takes the `default` branch and polls. -/
inductive LoopEvent where
  | ctxDone : CtxError → LoopEvent
  | pending : PollResult → LoopEvent

/-- Consumer-visible state: the offset of the last record committed by this
loop (`none` = the pre-loop cursor untouched) and the emitted log. -/
structure ConsumerState where
  committed : Option Int
  log : List LogEntry

/-- The body of one non-cancelled iteration of `Consumer.Start`: a timed-out
poll is silently retried; another poll error is logged and retried; a record
is processed, and its offset committed only when processing succeeded, a
commit error being logged only. -/
def startStep (handlers : List (String × MessageHandler)) (s : ConsumerState)
    (r : PollResult) : ConsumerState :=
  match r with
  | .readErr code msg =>
    if code = KafkaErrCode.timedOut then s
    else { s with log := s.log ++ [LogEntry.errReading (GoError.kafkaErr code msg)] }
  | .msg m commitRes =>
    match processMessage handlers m with
    | (some e, plog) => { s with log := s.log ++ plog ++ [LogEntry.errProcessing e m] }
    | (none, plog) =>
      match commitRes with
      | some e => { s with log := s.log ++ plog ++ [LogEntry.errCommitting e m.topic] }
      | none => { committed := some m.offset, log := s.log ++ plog }

structure RunResult where
  returned : Option GoError
  state : ConsumerState

/-- `Consumer.Start` run over a finite trace of iteration inputs: the loop
returns `ctx.Err()` at the first observed cancellation and otherwise keeps
iterating (`returned = none` means it is still looping when the trace ends). -/
def startRun (handlers : List (String × MessageHandler)) :
    ConsumerState → List LoopEvent → RunResult
  | s, [] => ⟨none, s⟩
  | s, LoopEvent.ctxDone ce :: _ => ⟨some (GoError.ctx ce), s⟩
  | s, LoopEvent.pending r :: rest => startRun handlers (startStep handlers s r) rest

/-- The result `Consumer.Start` would return on a trace: the context error of
the first observed cancellation, if any. -/
def firstCtxDone : List LoopEvent → Option GoError
  | [] => none
  | LoopEvent.ctxDone ce :: _ => some (GoError.ctx ce)
  | LoopEvent.pending _ :: rest => firstCtxDone rest

/-- Modelled from the spec: `confluent-kafka-go`'s `Consumer.SubscribeTopics`
is not part of this repository; per the spec the broker client rejects an
empty topic list, and may reject a subscription for client-side reasons
(`clientReject`). -/
def subscribeTopics (topics : List String) (clientReject : Option GoError) : Option GoError :=
  if topics.isEmpty then
    some (GoError.kafkaErr (KafkaErrCode.other (-186)) "invalid topic list")
  else clientReject

/-- `Consumer.Subscribe`: forwards to the broker client and wraps any error;
returns before any poll loop is entered. -/
def Subscribe (topics : List String) (clientReject : Option GoError) : Option GoError :=
  match subscribeTopics topics clientReject with
  | some e => some (GoError.subscribeFailed e)
  | none => none

/-! ### Concrete fixtures used by witnesses and counterexamples -/

def emptyObjBytes : List Char := [lbrace, rbrace]

def okHandlerReg : List (String × MessageHandler) := [("orders", fun _ => none)]

def failHandlerReg : List (String × MessageHandler) :=
  [("orders", fun _ => some (GoError.errMsg "boom"))]

def stateW : ConsumerState := ⟨some 3, []⟩

def msgW1 : KMessage := ⟨"orders", 0, 7, [], []⟩

def msgW2 : KMessage := ⟨"orders", 0, 9, [], []⟩

def msgOther : KMessage := ⟨"unknown", 0, 11, [], []⟩

def traceOf (ms : List KMessage) : List LoopEvent :=
  ms.map fun m => LoopEvent.pending (PollResult.msg m none)

/-! ### Verification -/

theorem skipWs_cons {c : Char} (l : List Char) (h : isWsChar c = false) :
    skipWs (c :: l) = c :: l := by
  simp [skipWs, h]

theorem digitChar_isDigit : ∀ n < 10, isDigitChar (digitChar n) = true := by decide

theorem digitChar_toNat : ∀ n < 10, (digitChar n).toNat = 48 + n := by decide

theorem natDigits_isDigit (n : Nat) : ∀ c ∈ natDigits n, isDigitChar c = true := by
  induction n using Nat.strong_induction_on with
  | _ n ih =>
    rw [natDigits]
    split
    · intro c hc
      simp at hc
      subst hc
      exact digitChar_isDigit n (by omega)
    · intro c hc
      have hdiv : n / 10 < n := Nat.div_lt_self (by omega) (by omega)
      cases List.mem_append.mp hc with
      | inl hmem => exact ih (n / 10) hdiv c hmem
      | inr hmem =>
        simp at hmem
        subst hmem
        exact digitChar_isDigit (n % 10) (by omega)

theorem natDigits_ne_nil (n : Nat) : natDigits n ≠ [] := by
  rw [natDigits]
  split
  · simp
  · simp

theorem readDigits_natDigits (n : Nat) : ∀ acc rest,
    readDigits (natDigits n ++ rest) acc =
      readDigits rest (acc * 10 ^ (natDigits n).length + n) := by
  induction n using Nat.strong_induction_on with
  | _ n ih =>
    intro acc rest
    rw [natDigits]
    split
    · rename_i h
      simp only [List.cons_append, List.nil_append, readDigits, digitChar_isDigit n h,
        if_true, digitChar_toNat n h]
      norm_num
    · rename_i h
      rw [List.append_assoc, ih (n / 10) (Nat.div_lt_self (by omega) (by omega))]
      simp only [List.cons_append, List.nil_append, readDigits,
        digitChar_isDigit (n % 10) (by omega), if_true, digitChar_toNat (n % 10) (by omega)]
      have hlen : ((natDigits (n / 10)).length + 1) = (natDigits (n / 10) ++ [digitChar (n % 10)]).length := by
        simp
      rw [← hlen]
      congr 1
      rw [pow_succ, ← mul_assoc]
      omega

theorem readDigits_stop (rest : List Char) (acc : Nat) (h : headNotDigit rest) :
    readDigits rest acc = (acc, rest) := by
  cases rest with
  | nil => rfl
  | cons c l =>
    have := h c (by rfl)
    simp [readDigits, this]

theorem parseHex1_hexDigitChar : ∀ d < 16, parseHex1 (hexDigitChar d) = some d := by decide

theorem char_toNat_valid (c : Char) : Nat.isValidChar c.toNat := by
  have h := c.valid
  unfold UInt32.isValidChar at h
  unfold Char.toNat
  rcases h with h | ⟨h1, h2⟩
  · exact Or.inl (by exact_mod_cast h)
  · exact Or.inr ⟨by exact_mod_cast h1, by exact_mod_cast h2⟩

theorem charOfCode_toNat (c : Char) : charOfCode c.toNat = c := by
  rw [charOfCode, if_pos (char_toNat_valid c), Char.ofNat_toNat]

theorem hex4_decomp (n : Nat) (h : n < 65536) :
    n / 4096 % 16 * 4096 + n / 256 % 16 * 256 + n / 16 % 16 * 16 + n % 16 = n := by
  omega

theorem psb_cons (c : Char) (rest acc : List Char) :
    parseStringBody (c :: rest) acc =
      if c = '"' then some (String.mk acc.reverse, rest)
      else if c = '\\' then parseEscape rest acc
      else if c.toNat < 32 then none
      else parseStringBody rest (c :: acc) := rfl

theorem parseEscape_u (x1 x2 x3 x4 : Char) (tail acc : List Char) :
    parseEscape ('u' :: x1 :: x2 :: x3 :: x4 :: tail) acc =
      match parseHex1 x1, parseHex1 x2, parseHex1 x3, parseHex1 x4 with
      | some a, some b, some c2, some d =>
        parseStringBody tail (charOfCode (a * 4096 + b * 256 + c2 * 16 + d) :: acc)
      | _, _, _, _ => none := by
  cases h1 : parseHex1 x1 <;> cases h2 : parseHex1 x2 <;>
    cases h3 : parseHex1 x3 <;> cases h4 : parseHex1 x4 <;>
      simp only [parseEscape, h1, h2, h3, h4, if_pos rfl, if_true]

theorem parseStringBody_escapeChar (c : Char) (tail acc : List Char) :
    parseStringBody (escapeChar c ++ tail) acc = parseStringBody tail (c :: acc) := by
  rw [escapeChar]
  by_cases h1 : c = '"'
  · subst h1
    simp only [eq_self_iff_true, if_true, List.cons_append, List.nil_append]
    rw [psb_cons, if_neg (by decide), if_pos rfl]
    simp only [parseEscape]
    repeat rw [if_neg (by decide)]
    all_goals rfl
  rw [if_neg h1]
  by_cases h2 : c = '\\'
  · subst h2
    simp only [eq_self_iff_true, if_true, List.cons_append, List.nil_append]
    rw [psb_cons, if_neg (by decide), if_pos rfl]
    simp only [parseEscape]
    repeat rw [if_neg (by decide)]
    all_goals rfl
  rw [if_neg h2]
  by_cases h3 : c = '\n'
  · subst h3
    simp only [eq_self_iff_true, if_true, List.cons_append, List.nil_append]
    rw [psb_cons, if_neg (by decide), if_pos rfl]
    simp only [parseEscape]
    repeat rw [if_neg (by decide)]
    all_goals rfl
  rw [if_neg h3]
  by_cases h4 : c = '\r'
  · subst h4
    simp only [eq_self_iff_true, if_true, List.cons_append, List.nil_append]
    rw [psb_cons, if_neg (by decide), if_pos rfl]
    simp only [parseEscape]
    repeat rw [if_neg (by decide)]
    all_goals rfl
  rw [if_neg h4]
  by_cases h5 : c = '\t'
  · subst h5
    simp only [eq_self_iff_true, if_true, List.cons_append, List.nil_append]
    rw [psb_cons, if_neg (by decide), if_pos rfl]
    simp only [parseEscape]
    repeat rw [if_neg (by decide)]
    all_goals rfl
  rw [if_neg h5]
  by_cases h6 : (c.toNat < 32 || c = '<' || c = '>' || c = '&'
       || c.toNat = 8232 || c.toNat = 8233) = true
  · rw [if_pos h6]
    simp only [Bool.or_eq_true, decide_eq_true_eq] at h6
    have hlt : c.toNat < 65536 := by
      rcases h6 with ((((hc | hc) | hc) | hc) | hc) | hc
      · omega
      · subst hc; decide
      · subst hc; decide
      · subst hc; decide
      · omega
      · omega
    simp only [toHex4, List.cons_append, List.nil_append]
    rw [psb_cons, if_neg (by decide), if_pos rfl, parseEscape_u,
      parseHex1_hexDigitChar _ (by omega), parseHex1_hexDigitChar _ (by omega),
      parseHex1_hexDigitChar _ (by omega), parseHex1_hexDigitChar _ (by omega)]
    simp only [hex4_decomp c.toNat hlt, charOfCode_toNat]
  · rw [if_neg h6]
    simp only [Bool.or_eq_true, decide_eq_true_eq, not_or] at h6
    obtain ⟨⟨⟨⟨⟨hn32, _⟩, _⟩, _⟩, _⟩, _⟩ := h6
    simp only [List.cons_append, List.nil_append]
    rw [psb_cons, if_neg h1, if_neg h2, if_neg hn32]

theorem parseStringBody_flatten (l : List Char) : ∀ acc rest,
    parseStringBody ((l.map escapeChar).flatten ++ '"' :: rest) acc =
      some (String.mk (acc.reverse ++ l), rest) := by
  induction l with
  | nil =>
    intro acc rest
    simp only [List.map_nil, List.flatten_nil, List.nil_append]
    rw [psb_cons, if_pos rfl]
    simp
  | cons c l ih =>
    intro acc rest
    simp only [List.map_cons, List.flatten_cons, List.append_assoc]
    rw [parseStringBody_escapeChar, ih]
    simp

theorem parseStringBody_renderString (s : String) (rest : List Char) :
    parseStringBody ((s.data.map escapeChar).flatten ++ '"' :: rest) [] =
      some (s, rest) := by
  rw [parseStringBody_flatten]
  simp

theorem intChars_ne_nil (n : Int) : intChars n ≠ [] := by
  rw [intChars]
  split
  · simp
  · exact natDigits_ne_nil _

/-- Digits are not special JSON delimiter characters. -/
theorem isDigit_facts (c : Char) (h : isDigitChar c = true) :
    isWsChar c = false ∧ c ≠ ']' ∧ c ≠ rbrace := by
  have hn : 48 ≤ c.toNat ∧ c.toNat ≤ 57 := by
    simpa [isDigitChar] using h
  refine ⟨?_, ?_, ?_⟩
  · cases hb : isWsChar c
    · rfl
    · exfalso
      simp only [isWsChar, Bool.or_eq_true, decide_eq_true_eq] at hb
      rcases hb with ((hc | hc) | hc) | hc <;> (subst hc; exact absurd hn (by decide))
  · intro hc; subst hc; exact absurd hn (by decide)
  · intro hc; subst hc; exact absurd hn (by decide)

theorem isDigit_ne (c d : Char) (h : isDigitChar c = true) (hd : isDigitChar d = false) :
    c ≠ d := by
  intro hc
  rw [hc, hd] at h
  exact Bool.noConfusion h

/-- The first character of a rendered JSON value: never whitespace, never a
closing bracket or brace. -/
theorem renderJson_head (j : Json) :
    ∃ c cs, renderJson j = c :: cs ∧ isWsChar c = false ∧ c ≠ ']' ∧ c ≠ rbrace := by
  cases j with
  | num n =>
    rw [renderJson, intChars]
    split
    · refine ⟨'-', _, rfl, ?_, ?_, ?_⟩ <;> decide
    · obtain ⟨c, cs, hd⟩ := List.exists_cons_of_ne_nil (natDigits_ne_nil n.natAbs)
      have hdig : isDigitChar c = true := natDigits_isDigit _ c (by rw [hd]; simp)
      obtain ⟨hw, hbr, hrb⟩ := isDigit_facts c hdig
      exact ⟨c, cs, hd, hw, hbr, hrb⟩
  | bool b => cases b <;> (refine ⟨_, _, rfl, ?_, ?_, ?_⟩ <;> decide)
  | arr l => cases l <;> (refine ⟨_, _, rfl, ?_, ?_, ?_⟩ <;> decide)
  | obj l => cases l <;> (refine ⟨_, _, rfl, ?_, ?_, ?_⟩ <;> decide)
  | null => refine ⟨_, _, rfl, ?_, ?_, ?_⟩ <;> decide
  | str s => refine ⟨_, _, rfl, ?_, ?_, ?_⟩ <;> decide

theorem jsonSize_pos (j : Json) : 1 ≤ jsonSize j := by
  cases j <;> simp [jsonSize]

example (f : Nat) (rest : List Char) :
    parseValue (f + 1) (renderJson Json.null ++ rest) = some (Json.null, rest) := by
  simp only [renderJson, List.cons_append, List.nil_append]
  simp only [parseValue]
  rw [skipWs_cons _ (by decide)]
  simp [expectChars]

example (f : Nat) (n : Int) (rest : List Char) (hr : headNotDigit rest) :
    parseValue (f + 1) (renderJson (Json.num n) ++ rest) = some (Json.num n, rest) := by
  simp only [renderJson, intChars]
  by_cases hn : n < 0
  · rw [if_pos hn]
    obtain ⟨c, cs, hd⟩ := List.exists_cons_of_ne_nil (natDigits_ne_nil n.natAbs)
    have hdig : isDigitChar c = true := natDigits_isDigit _ c (by rw [hd]; simp)
    simp only [parseValue, List.cons_append]
    rw [skipWs_cons _ (by decide)]
    simp only [if_neg (by decide : ¬ ('-' : Char) = 'n'), if_neg (by decide : ¬ ('-' : Char) = 't'),
      if_neg (by decide : ¬ ('-' : Char) = 'f'), if_neg (by decide : ¬ ('-' : Char) = '"'),
      if_neg (by decide : ¬ ('-' : Char) = '['), if_neg (by decide : ¬ ('-' : Char) = lbrace),
      if_pos (rfl : ('-' : Char) = '-')]
    rw [hd]
    simp only [List.cons_append, hdig, if_true]
    rw [← List.cons_append, ← hd, readDigits_natDigits, readDigits_stop _ _ hr]
    simp only [Option.some.injEq, Prod.mk.injEq]
    constructor
    · congr 1
      omega
    · trivial
  · rw [if_neg hn]
    obtain ⟨c, cs, hd⟩ := List.exists_cons_of_ne_nil (natDigits_ne_nil n.natAbs)
    have hdig : isDigitChar c = true := natDigits_isDigit _ c (by rw [hd]; simp)
    rw [hd]
    simp only [parseValue, List.cons_append]
    rw [skipWs_cons _ (isDigit_facts c hdig).1]
    simp only [if_neg (isDigit_ne c 'n' hdig (by decide)), if_neg (isDigit_ne c 't' hdig (by decide)),
      if_neg (isDigit_ne c 'f' hdig (by decide)), if_neg (isDigit_ne c '"' hdig (by decide)),
      if_neg (isDigit_ne c '[' hdig (by decide)), if_neg (isDigit_ne c lbrace hdig (by decide)),
      if_neg (isDigit_ne c '-' hdig (by decide)), hdig, if_true]
    rw [← List.cons_append, ← hd, readDigits_natDigits, readDigits_stop _ _ hr]
    simp only [Option.some.injEq, Prod.mk.injEq]
    constructor
    · congr 1
      omega
    · trivial

theorem headNotDigit_nil : headNotDigit [] := by
  intro c hc
  simp at hc

theorem headNotDigit_cons (c : Char) (l : List Char) (h : isDigitChar c = false) :
    headNotDigit (c :: l) := by
  intro d hd
  rw [List.head?_cons, Option.some.injEq] at hd
  subst hd
  exact h

theorem headNotDigit_renderElems (xs : List Json) (rest : List Char) :
    headNotDigit (renderElems xs ++ ']' :: rest) := by
  cases xs with
  | nil => exact headNotDigit_cons _ _ (by decide)
  | cons y ys =>
    simp only [renderElems, List.cons_append]
    exact headNotDigit_cons _ _ (by decide)

theorem headNotDigit_renderMembers (ps : List (String × Json)) (rest : List Char) :
    headNotDigit (renderMembers ps ++ rbrace :: rest) := by
  cases ps with
  | nil => exact headNotDigit_cons _ _ (by decide)
  | cons q qs =>
    simp only [renderMembers, List.cons_append]
    exact headNotDigit_cons _ _ (by decide)

theorem skipWs_rbracket (l : List Char) : skipWs (']' :: l) = ']' :: l :=
  skipWs_cons _ (by decide)

theorem skipWs_comma (l : List Char) : skipWs (',' :: l) = ',' :: l :=
  skipWs_cons _ (by decide)

theorem skipWs_colon (l : List Char) : skipWs (':' :: l) = ':' :: l :=
  skipWs_cons _ (by decide)

theorem skipWs_quote (l : List Char) : skipWs ('"' :: l) = '"' :: l :=
  skipWs_cons _ (by decide)

theorem skipWs_rbrace (l : List Char) : skipWs (rbrace :: l) = rbrace :: l :=
  skipWs_cons _ (by decide)

theorem parseValue_render_main (N : Nat) :
    (∀ j fuel rest, jsonSize j ≤ N → jsonSize j ≤ fuel → headNotDigit rest →
        parseValue fuel (renderJson j ++ rest) = some (j, rest)) ∧
    (∀ x xs fuel rest, 1 + jsonSize x + jsonListSize xs ≤ N →
        1 + jsonSize x + jsonListSize xs ≤ fuel →
        parseElems fuel (renderJson x ++ (renderElems xs ++ (']' :: rest))) =
          some (x :: xs, rest)) ∧
    (∀ k v ps fuel rest, 1 + jsonSize v + jsonObjSize ps ≤ N →
        1 + jsonSize v + jsonObjSize ps ≤ fuel →
        parseMembers fuel (renderPair (k, v) ++ (renderMembers ps ++ (rbrace :: rest))) =
          some ((k, v) :: ps, rest)) := by
  induction N with
  | zero =>
    refine ⟨?_, ?_, ?_⟩
    · intro j fuel rest hN _ _
      have := jsonSize_pos j
      omega
    · intro x xs fuel rest hN _
      omega
    · intro k v ps fuel rest hN _
      omega
  | succ N ih =>
    obtain ⟨ihA, ihB, ihC⟩ := ih
    refine ⟨?_, ?_, ?_⟩
    · intro j fuel rest hN hfuel hrest
      obtain ⟨f, rfl⟩ : ∃ f, fuel = f + 1 := ⟨fuel - 1, by have := jsonSize_pos j; omega⟩
      cases j with
      | null =>
        simp only [renderJson, List.cons_append, List.nil_append]
        simp only [parseValue]
        rw [skipWs_cons _ (by decide)]
        simp [expectChars]
      | bool b =>
        cases b with
        | true =>
          simp only [renderJson, if_true, List.cons_append, List.nil_append]
          simp only [parseValue]
          rw [skipWs_cons _ (by decide)]
          simp [expectChars]
        | false =>
          simp only [renderJson, Bool.false_eq_true, if_false, List.cons_append,
            List.nil_append]
          simp only [parseValue]
          rw [skipWs_cons _ (by decide)]
          simp [expectChars]
      | num n =>
        simp only [renderJson, intChars]
        by_cases hn : n < 0
        · rw [if_pos hn]
          obtain ⟨c, cs, hd⟩ := List.exists_cons_of_ne_nil (natDigits_ne_nil n.natAbs)
          have hdig : isDigitChar c = true := natDigits_isDigit _ c (by rw [hd]; simp)
          simp only [parseValue, List.cons_append]
          rw [skipWs_cons _ (by decide)]
          simp only [if_neg (by decide : ¬ ('-' : Char) = 'n'),
            if_neg (by decide : ¬ ('-' : Char) = 't'),
            if_neg (by decide : ¬ ('-' : Char) = 'f'),
            if_neg (by decide : ¬ ('-' : Char) = '"'),
            if_neg (by decide : ¬ ('-' : Char) = '['),
            if_neg (by decide : ¬ ('-' : Char) = lbrace),
            if_pos (rfl : ('-' : Char) = '-')]
          rw [hd]
          simp only [List.cons_append, hdig, if_true]
          rw [← List.cons_append, ← hd, readDigits_natDigits, readDigits_stop _ _ hrest]
          simp only [Option.some.injEq, Prod.mk.injEq]
          constructor
          · congr 1
            omega
          · trivial
        · rw [if_neg hn]
          obtain ⟨c, cs, hd⟩ := List.exists_cons_of_ne_nil (natDigits_ne_nil n.natAbs)
          have hdig : isDigitChar c = true := natDigits_isDigit _ c (by rw [hd]; simp)
          rw [hd]
          simp only [parseValue, List.cons_append]
          rw [skipWs_cons _ (isDigit_facts c hdig).1]
          simp only [if_neg (isDigit_ne c 'n' hdig (by decide)),
            if_neg (isDigit_ne c 't' hdig (by decide)),
            if_neg (isDigit_ne c 'f' hdig (by decide)),
            if_neg (isDigit_ne c '"' hdig (by decide)),
            if_neg (isDigit_ne c '[' hdig (by decide)),
            if_neg (isDigit_ne c lbrace hdig (by decide)),
            if_neg (isDigit_ne c '-' hdig (by decide)), hdig, if_true]
          rw [← List.cons_append, ← hd, readDigits_natDigits, readDigits_stop _ _ hrest]
          simp only [Option.some.injEq, Prod.mk.injEq]
          constructor
          · congr 1
            omega
          · trivial
      | str s =>
        simp only [renderJson, renderString, List.cons_append, List.append_assoc,
          List.nil_append]
        simp only [parseValue]
        rw [skipWs_cons _ (by decide)]
        simp only [if_neg (by decide : ¬ ('"' : Char) = 'n'),
          if_neg (by decide : ¬ ('"' : Char) = 't'),
          if_neg (by decide : ¬ ('"' : Char) = 'f'),
          if_pos (rfl : ('"' : Char) = '"')]
        rw [parseStringBody_renderString]
        rfl
      | arr l =>
        cases l with
        | nil =>
          simp only [renderJson, List.cons_append, List.nil_append]
          simp only [parseValue]
          rw [skipWs_cons _ (by decide)]
          simp only [if_neg (by decide : ¬ ('[' : Char) = 'n'),
            if_neg (by decide : ¬ ('[' : Char) = 't'),
            if_neg (by decide : ¬ ('[' : Char) = 'f'),
            if_neg (by decide : ¬ ('[' : Char) = '"'),
            if_pos (rfl : ('[' : Char) = '[')]
          rw [skipWs_cons _ (by decide)]
          simp [List.head?_cons]
        | cons x xs =>
          simp only [renderJson, List.cons_append, List.append_assoc, List.nil_append]
          simp only [parseValue]
          rw [skipWs_cons _ (by decide)]
          simp only [if_neg (by decide : ¬ ('[' : Char) = 'n'),
            if_neg (by decide : ¬ ('[' : Char) = 't'),
            if_neg (by decide : ¬ ('[' : Char) = 'f'),
            if_neg (by decide : ¬ ('[' : Char) = '"'),
            if_pos (rfl : ('[' : Char) = '[')]
          obtain ⟨c0, cs0, hx, hws0, hbr0, _⟩ := renderJson_head x
          rw [hx, List.cons_append, skipWs_cons _ hws0, ← List.cons_append, ← hx]
          have hcond : (renderJson x ++ (renderElems xs ++ ']' :: rest)).head? ≠ some ']' := by
            rw [hx]
            simp [List.head?_cons, hbr0]
          rw [if_neg hcond]
          have hsz : jsonSize (Json.arr (x :: xs)) = 2 + jsonSize x + jsonListSize xs := by
            simp [jsonSize, jsonListSize]
            omega
          rw [ihB x xs f rest (by rw [hsz] at hN; omega) (by rw [hsz] at hfuel; omega)]
          rfl
      | obj l =>
        cases l with
        | nil =>
          simp only [renderJson, List.cons_append, List.nil_append]
          simp only [parseValue]
          rw [skipWs_cons _ (by decide)]
          simp only [if_neg (by decide : ¬ lbrace = 'n'),
            if_neg (by decide : ¬ lbrace = 't'),
            if_neg (by decide : ¬ lbrace = 'f'),
            if_neg (by decide : ¬ lbrace = '"'),
            if_neg (by decide : ¬ lbrace = '['),
            if_pos (rfl : lbrace = lbrace)]
          rw [skipWs_cons _ (by decide)]
          simp [List.head?_cons]
        | cons p ps =>
          obtain ⟨k, v⟩ := p
          simp only [renderJson, List.cons_append, List.append_assoc, List.nil_append]
          simp only [parseValue]
          rw [skipWs_cons _ (by decide)]
          simp only [if_neg (by decide : ¬ lbrace = 'n'),
            if_neg (by decide : ¬ lbrace = 't'),
            if_neg (by decide : ¬ lbrace = 'f'),
            if_neg (by decide : ¬ lbrace = '"'),
            if_neg (by decide : ¬ lbrace = '['),
            if_pos (rfl : lbrace = lbrace)]
          rw [show renderPair (k, v) = renderString k ++ ':' :: renderJson v from rfl,
            renderString]
          simp only [List.cons_append, List.append_assoc]
          rw [skipWs_cons _ (by decide)]
          simp only [List.nil_append, if_true]
          have hcond : (('"' : Char) :: ((k.data.map escapeChar).flatten ++
              '"' :: ':' :: (renderJson v ++ (renderMembers ps ++ rbrace :: rest)))).head? ≠
                some rbrace := by
            simp only [List.head?_cons, Option.some.injEq]
            decide
          rw [if_neg hcond]
          have hpm := ihC k v ps f rest ?_ ?_
          · rw [show renderPair (k, v) = renderString k ++ ':' :: renderJson v from rfl,
              renderString] at hpm
            simp only [List.cons_append, List.append_assoc, List.nil_append] at hpm
            rw [hpm]
            rfl
          · have hsz : jsonSize (Json.obj ((k, v) :: ps)) = 2 + jsonSize v + jsonObjSize ps := by
              simp [jsonSize, jsonObjSize]
              omega
            rw [hsz] at hN
            omega
          · have hsz : jsonSize (Json.obj ((k, v) :: ps)) = 2 + jsonSize v + jsonObjSize ps := by
              simp [jsonSize, jsonObjSize]
              omega
            rw [hsz] at hfuel
            omega
    · intro x xs fuel rest hN hfuel
      obtain ⟨f, rfl⟩ : ∃ f, fuel = f + 1 := ⟨fuel - 1, by omega⟩
      have hx : jsonSize x ≤ N := by have := jsonSize_pos x; omega
      simp only [parseElems]
      simp only [ihA x f (renderElems xs ++ ']' :: rest) hx (by omega)
        (headNotDigit_renderElems xs rest)]
      cases xs with
      | nil =>
        simp only [renderElems, List.nil_append, skipWs_rbracket]
        simp only [if_neg (by decide : ¬ (']' : Char) = ','),
          if_pos (rfl : (']' : Char) = ']'), if_true]
      | cons y ys =>
        simp only [renderElems, List.cons_append, skipWs_comma,
          if_pos (rfl : (',' : Char) = ','), if_true]
        rw [List.append_assoc]
        simp only [ihB y ys f rest
          (by have := jsonSize_pos x; simp only [jsonListSize] at hN; omega)
          (by have := jsonSize_pos x; simp only [jsonListSize] at hfuel; omega)]
    · intro k v ps fuel rest hN hfuel
      obtain ⟨f, rfl⟩ : ∃ f, fuel = f + 1 := ⟨fuel - 1, by omega⟩
      simp only [parseMembers]
      rw [show renderPair (k, v) = renderString k ++ ':' :: renderJson v from rfl, renderString]
      simp only [List.cons_append, List.append_assoc, List.nil_append, skipWs_quote,
        if_pos (rfl : ('"' : Char) = '"'), if_true]
      rw [parseStringBody_renderString]
      simp only [skipWs_colon, if_pos (rfl : (':' : Char) = ':'), if_true]
      simp only [ihA v f (renderMembers ps ++ rbrace :: rest)
        (by have := jsonSize_pos v; omega) (by omega)
        (headNotDigit_renderMembers ps rest)]
      cases ps with
      | nil =>
        simp only [renderMembers, List.nil_append, skipWs_rbrace]
        simp only [if_neg (by decide : ¬ rbrace = ','), if_pos (rfl : rbrace = rbrace), if_true]
      | cons q qs =>
        obtain ⟨k2, v2⟩ := q
        simp only [renderMembers, List.cons_append, skipWs_comma,
          if_pos (rfl : (',' : Char) = ','), if_true]
        rw [List.append_assoc]
        simp only [ihC k2 v2 qs f rest
          (by have := jsonSize_pos v; simp only [jsonObjSize] at hN; omega)
          (by have := jsonSize_pos v; simp only [jsonObjSize] at hfuel; omega)]

theorem jsonSize_le_renderLength_main (N : Nat) :
    (∀ j, jsonSize j ≤ N → jsonSize j ≤ (renderJson j).length) ∧
    (∀ l, jsonListSize l ≤ N → jsonListSize l ≤ (renderElems l).length) ∧
    (∀ l, jsonObjSize l ≤ N → jsonObjSize l ≤ (renderMembers l).length) := by
  induction N with
  | zero =>
    refine ⟨?_, ?_, ?_⟩
    · intro j hN
      have := jsonSize_pos j
      omega
    · intro l hN
      cases l with
      | nil => simp [jsonListSize]
      | cons j rest =>
        have := jsonSize_pos j
        simp only [jsonListSize] at hN
        omega
    · intro l hN
      cases l with
      | nil => simp [jsonObjSize]
      | cons p rest =>
        have := jsonSize_pos p.2
        simp only [jsonObjSize] at hN
        omega
  | succ N ih =>
    obtain ⟨ihA, ihB, ihC⟩ := ih
    refine ⟨?_, ?_, ?_⟩
    · intro j hN
      cases j with
      | null => simp [jsonSize, renderJson]
      | bool b => cases b <;> simp [jsonSize, renderJson]
      | num n =>
        have := intChars_ne_nil n
        have : 1 ≤ (intChars n).length := by
          cases hc : intChars n with
          | nil => exact absurd hc (intChars_ne_nil n)
          | cons c cs => simp
        simp only [jsonSize, renderJson]
        omega
      | str s =>
        simp [jsonSize, renderJson, renderString]
      | arr l =>
        cases l with
        | nil => simp [jsonSize, jsonListSize, renderJson]
        | cons x xs =>
          have hx : jsonSize x ≤ (renderJson x).length := by
            apply ihA
            simp only [jsonSize, jsonListSize] at hN
            have := jsonSize_pos x
            omega
          have hxs : jsonListSize xs ≤ (renderElems xs).length := by
            apply ihB
            simp only [jsonSize, jsonListSize] at hN
            have := jsonSize_pos x
            omega
          simp only [jsonSize, jsonListSize, renderJson, List.length_cons,
            List.length_append, List.length_cons, List.length_nil]
          omega
      | obj l =>
        cases l with
        | nil => simp [jsonSize, jsonObjSize, renderJson]
        | cons p ps =>
          obtain ⟨k, v⟩ := p
          have hv : jsonSize v ≤ (renderJson v).length := by
            apply ihA
            simp only [jsonSize, jsonObjSize] at hN
            have := jsonSize_pos v
            omega
          have hps : jsonObjSize ps ≤ (renderMembers ps).length := by
            apply ihC
            simp only [jsonSize, jsonObjSize] at hN
            have := jsonSize_pos v
            omega
          simp only [jsonSize, jsonObjSize, renderJson, renderPair, List.length_cons,
            List.length_append, List.length_nil]
          omega
    · intro l hN
      cases l with
      | nil => simp [jsonListSize]
      | cons j rest =>
        have hj : jsonSize j ≤ (renderJson j).length := by
          apply ihA
          simp only [jsonListSize] at hN
          have := jsonSize_pos j
          omega
        have hrest : jsonListSize rest ≤ (renderElems rest).length := by
          apply ihB
          simp only [jsonListSize] at hN
          have := jsonSize_pos j
          omega
        simp only [jsonListSize, renderElems, List.length_cons, List.length_append]
        omega
    · intro l hN
      cases l with
      | nil => simp [jsonObjSize]
      | cons p rest =>
        obtain ⟨k, v⟩ := p
        have hv : jsonSize v ≤ (renderJson v).length := by
          apply ihA
          simp only [jsonObjSize] at hN
          have := jsonSize_pos v
          omega
        have hrest : jsonObjSize rest ≤ (renderMembers rest).length := by
          apply ihC
          simp only [jsonObjSize] at hN
          have := jsonSize_pos v
          omega
        simp only [jsonObjSize, renderMembers, renderPair, List.length_cons,
          List.length_append]
        omega

theorem jsonSize_le_renderLength (j : Json) : jsonSize j ≤ (renderJson j).length :=
  (jsonSize_le_renderLength_main (jsonSize j)).1 j le_rfl

/-- Reading back a rendered JSON value succeeds and reproduces the value. -/
theorem parseJson_renderJson (j : Json) : parseJson (renderJson j) = some j := by
  rw [parseJson]
  have h := (parseValue_render_main (jsonSize j)).1 j ((renderJson j).length + 1) []
    le_rfl (by have := jsonSize_le_renderLength j; omega) headNotDigit_nil
  rw [List.append_nil] at h
  rw [h]
  simp [skipWs]

theorem eventFromJson_eventToJson (e : Event) : eventFromJson (eventToJson e) = .ok e := rfl

/-- Envelope decode is a left inverse of envelope encode, for every envelope. -/
theorem UnmarshalEvent_Marshal (e : Event) : UnmarshalEvent (Marshal e) = .ok e := by
  rw [UnmarshalEvent, Marshal, parseJson_renderJson]
  exact eventFromJson_eventToJson e

theorem orderItemFromJson_toJson (it : OrderItem) :
    orderItemFromJson (orderItemToJson it) = .ok it := rfl

theorem mapM_orderItem (l : List OrderItem) :
    (l.map orderItemToJson).mapM orderItemFromJson = Except.ok l := by
  induction l with
  | nil => rfl
  | cons it rest ih =>
    simp only [List.map_cons, List.mapM_cons, orderItemFromJson_toJson, ih]
    rfl

theorem orderFromJson_toJson (o : Order) : orderFromJson (orderToJson o) = .ok o := by
  have h1 : orderFromJson (orderToJson o) =
      (setOrderField ⟨o.id, o.customer_id, [], 0, "", "", ""⟩ "items"
          (Json.arr (o.items.map orderItemToJson))).bind (fun s =>
        List.foldlM (fun a p => setOrderField a p.1 p.2) s
          [("total_price", Json.num o.total_price), ("status", Json.str o.status),
           ("created_at", Json.str o.created_at), ("updated_at", Json.str o.updated_at)]) := rfl
  rw [h1, show setOrderField ⟨o.id, o.customer_id, [], 0, "", "", ""⟩ "items"
      (Json.arr (o.items.map orderItemToJson)) =
      ((o.items.map orderItemToJson).mapM orderItemFromJson).map
        (fun is => ⟨o.id, o.customer_id, is, 0, "", "", ""⟩) from rfl,
    mapM_orderItem]
  rfl

theorem orderCreatedFromJson_toJson (p : OrderCreatedEvent) :
    orderCreatedFromJson (orderCreatedToJson p) = .ok p := by
  have h1 : orderCreatedFromJson (orderCreatedToJson p) =
      ((orderFromJson (orderToJson p.order)).map
        (fun o => (⟨o⟩ : OrderCreatedEvent))).bind pure := rfl
  rw [h1, orderFromJson_toJson]
  rfl

theorem decodeOrderCreatedData_toJson (p : OrderCreatedEvent) :
    decodeOrderCreatedData (orderCreatedToJson p) = .ok p := by
  rw [decodeOrderCreatedData, parseJson_renderJson]
  exact orderCreatedFromJson_toJson p

theorem startRun_all_ok (handlers : List (String × MessageHandler)) (ms : List KMessage) :
    ∀ s : ConsumerState, (∀ m ∈ ms, processMessage handlers m = (none, [])) →
      startRun handlers s (traceOf ms) =
        ⟨none, ⟨ms.foldl (fun _ m => some m.offset) s.committed, s.log⟩⟩ := by
  induction ms with
  | nil => intro s _; rfl
  | cons m rest ih =>
    intro s hok
    have hm := hok m (by simp)
    simp only [traceOf, List.map_cons, startRun, startStep, hm, List.foldl_cons]
    have := ih ⟨some m.offset, s.log ++ []⟩ (fun m2 hm2 => hok m2 (by simp [hm2]))
    simp only [traceOf] at this
    rw [this]
    simp

theorem foldl_lastOffset (ms : List KMessage) (init : Option Int) :
    ms.foldl (fun _ m => some m.offset) init =
      (ms.getLast?).elim init (fun m => some m.offset) := by
  induction ms generalizing init with
  | nil => rfl
  | cons m rest ih =>
    cases rest with
    | nil => rfl
    | cons m2 rest2 =>
      rw [List.foldl_cons, ih (some m.offset), List.getLast?_cons_cons]
      obtain ⟨y, hy⟩ : ∃ y, (m2 :: rest2).getLast? = some y := by
        cases h : (m2 :: rest2).getLast? with
        | some y => exact ⟨y, rfl⟩
        | none => simp at h
      rw [hy]
      rfl

theorem startRun_all_fail (handlers : List (String × MessageHandler)) (ms : List KMessage) :
    ∀ s : ConsumerState, (∀ m ∈ ms, (processMessage handlers m).1.isSome) →
      (startRun handlers s (traceOf ms)).returned = none ∧
      (startRun handlers s (traceOf ms)).state.committed = s.committed := by
  induction ms with
  | nil => intro s _; exact ⟨rfl, rfl⟩
  | cons m rest ih =>
    intro s hfail
    have hm := hfail m (by simp)
    obtain ⟨e, plog, hpm⟩ : ∃ e plog, processMessage handlers m = (some e, plog) := by
      rcases hp : processMessage handlers m with ⟨o, plog⟩
      rw [hp] at hm
      cases o with
      | none => simp at hm
      | some e => exact ⟨e, plog, rfl⟩
    simp only [traceOf, List.map_cons, startRun, startStep, hpm]
    exact ih _ (fun m2 hm2 => hfail m2 (by simp [hm2]))

theorem startRun_returned (handlers : List (String × MessageHandler)) (tr : List LoopEvent) :
    ∀ s, (startRun handlers s tr).returned = firstCtxDone tr := by
  induction tr with
  | nil => intro s; rfl
  | cons ev rest ih =>
    intro s
    cases ev with
    | ctxDone ce => rfl
    | pending r => exact ih _

theorem firstCtxDone_ctx (tr : List LoopEvent) :
    (firstCtxDone tr).all isCtxErrorB = true := by
  induction tr with
  | nil => rfl
  | cons ev rest ih =>
    cases ev with
    | ctxDone ce => rfl
    | pending r => exact ih

/-- C1: the consumer loop commits a record's offset only after its handler
returns success.  With a handler that succeeds on every delivered record and
successful commits, after processing the records the committed cursor is the
offset of the last record; with a handler that fails on every record, the
committed cursor keeps its pre-loop value. -/
theorem claim_C1_commit_only_after_success
    (handlers : List (String × MessageHandler)) (s0 : ConsumerState) (ms : List KMessage) :
    (∀ mN, ms.getLast? = some mN →
      (∀ m ∈ ms, processMessage handlers m = (none, [])) →
      (startRun handlers s0 (traceOf ms)).state.committed = some mN.offset) ∧
    ((∀ m ∈ ms, (processMessage handlers m).1.isSome) →
      (startRun handlers s0 (traceOf ms)).state.committed = s0.committed) := by
  constructor
  · intro mN hlast hok
    rw [startRun_all_ok handlers ms s0 hok]
    simp only
    rw [foldl_lastOffset, hlast]
    rfl
  · intro hfail
    exact (startRun_all_fail handlers ms s0 hfail).2

theorem claim_C1_commit_only_after_success_witness :
    (startRun okHandlerReg stateW (traceOf [msgW1, msgW2])).state.committed = some 9 ∧
    (startRun failHandlerReg stateW (traceOf [msgW1, msgW2])).state.committed = some 3 := by
  constructor
  · exact (claim_C1_commit_only_after_success okHandlerReg stateW [msgW1, msgW2]).1 msgW2
      (by rfl) (by decide)
  · exact (claim_C1_commit_only_after_success failHandlerReg stateW [msgW1, msgW2]).2
      (by decide)

/-- C2: the generated event id is a function of the sampled clock alone — the
suffix has no independent randomness — so two calls whose nine `time.Now()`
samples land in the same tick yield the identical id; at the frozen sample
clock the id is the fixed string below. -/
theorem claim_C2_id_from_clock_only :
    (∀ c1 c2 : Nat → GoTime, (∀ i, i < 9 → c1 i = c2 i) →
      generateEventID c1 = generateEventID c2) ∧
    generateEventID frozenClock = "20231114221320-AAAAAAAA" := by
  constructor
  · intro c1 c2 h
    have hmap : (List.range 8).map
          (fun i => letters.getD ((c1 (i + 1)).unixNano.emod 62).toNat 'a')
        = (List.range 8).map
          (fun i => letters.getD ((c2 (i + 1)).unixNano.emod 62).toNat 'a') := by
      apply List.map_congr_left
      intro i hi
      rw [h (i + 1) (by simp [List.mem_range] at hi; omega)]
    rw [generateEventID, generateEventID, randomString, randomString, hmap,
      h 0 (by omega)]
  · decide

theorem claim_C2_id_from_clock_only_witness :
    generateEventID frozenClock = generateEventID frozenClock :=
  claim_C2_id_from_clock_only.1 frozenClock frozenClock (fun _ _ => rfl)

/-- C3: when the caller's context is done before the delivery report arrives,
`Publish` returns the context's error — recognizably a timeout/cancellation,
not a delivery error — and issues exactly one `Produce` call (no retry). -/
theorem claim_C3_publish_timeout_distinct (ce : CtxError) :
    Publish none (DeliverySelect.ctxDone ce) =
      ⟨some (GoError.ctx ce), 1⟩ ∧
    isCtxErrorB (GoError.ctx ce) = true ∧
    isDeliveryErrorB (GoError.ctx ce) = false :=
  ⟨rfl, rfl, rfl⟩

/-- C4: the consumer loop never returns because of a poll error: a timed-out
poll is retried silently, any other poll error is logged and retried, and
the run returns exactly at the first observed cancellation, with the context
error — every returned value is a context error. -/
theorem claim_C4_loop_returns_only_on_cancellation
    (handlers : List (String × MessageHandler)) (s0 : ConsumerState) (tr : List LoopEvent) :
    (startRun handlers s0 tr).returned = firstCtxDone tr ∧
    ((startRun handlers s0 tr).returned.all isCtxErrorB) = true ∧
    (∀ code msg s, startStep handlers s (PollResult.readErr code msg) =
      if code = KafkaErrCode.timedOut then s
      else { s with log := s.log ++ [LogEntry.errReading (GoError.kafkaErr code msg)] }) := by
  refine ⟨startRun_returned handlers tr s0, ?_, fun code msg s => rfl⟩
  rw [startRun_returned handlers tr s0]
  exact firstCtxDone_ctx tr

/-- C5: decoding the bytes of an encoded envelope reproduces an envelope with
the same type, and the second-stage, type-directed decode of its payload
returns a value equal to the original payload. -/
theorem claim_C5_roundtrip (p : OrderCreatedEvent) (id ts : String) :
    UnmarshalEvent (Marshal ⟨id, EventTypeOrderCreated, ts, orderCreatedToJson p⟩) =
      .ok ⟨id, EventTypeOrderCreated, ts, orderCreatedToJson p⟩ ∧
    decodeOrderCreatedData (orderCreatedToJson p) = .ok p :=
  ⟨UnmarshalEvent_Marshal _, decodeOrderCreatedData_toJson p⟩

/-- C6 counterexample: the two bytes of an empty JSON object are not a
well-formed encoded envelope, yet `UnmarshalEvent` succeeds on them and
returns the silently zero-valued envelope. -/
theorem claim_C6_counterexample :
    ¬ wellFormedEnvelopeBytes emptyObjBytes ∧
    UnmarshalEvent emptyObjBytes = .ok zeroEvent := by
  constructor
  · rintro ⟨e, he⟩
    simp only [Marshal, eventToJson, renderJson, renderPair, renderString, emptyObjBytes,
      List.cons_append, List.append_assoc] at he
    have h2 := congrArg List.tail he
    simp only [List.tail_cons] at h2
    have h3 := congrArg List.head? h2
    simp only [List.head?_cons] at h3
    have h4 : ('"' : Char) = rbrace := by
      injection h3
    exact absurd h4 (by decide)
  · rfl

/-- C6 amended: on bytes that are not syntactically well-formed JSON the
envelope decode fails with a decode error and returns no envelope value. -/
theorem claim_C6_amended_decode_error (s : List Char) (h : parseJson s = none) :
    UnmarshalEvent s = .error (GoError.decodeErr "invalid JSON input") := by
  rw [UnmarshalEvent, h]

theorem claim_C6_amended_decode_error_witness :
    UnmarshalEvent ['t', 'r', 'u'] = .error (GoError.decodeErr "invalid JSON input") :=
  claim_C6_amended_decode_error _ (by rfl)

/-- C7: the outer envelope decode succeeds — and reproduces the envelope — on
every encoded envelope whatever its payload shape or type tag, while the
inner type-directed payload decode can fail on an unexpected payload shape. -/
theorem claim_C7_outer_decode_total (e : Event) :
    UnmarshalEvent (Marshal e) = .ok e ∧
    decodeOrderCreatedData (Json.str "x") =
      .error (GoError.decodeErr "cannot unmarshal value into OrderCreatedEvent") :=
  ⟨UnmarshalEvent_Marshal e, rfl⟩

/-- C8: a record whose topic has no registered handler is not an error:
`processMessage` logs the skip and returns success. -/
theorem claim_C8_missing_handler_not_error
    (handlers : List (String × MessageHandler)) (m : KMessage)
    (h : lookupHandler handlers m.topic = none) :
    processMessage handlers m = (none, [LogEntry.warnNoHandler m.topic]) := by
  rw [processMessage, h]

theorem claim_C8_missing_handler_not_error_witness :
    processMessage [] msgOther = (none, [LogEntry.warnNoHandler "unknown"]) :=
  claim_C8_missing_handler_not_error [] msgOther rfl

/-- C9: `Subscribe` returns an error — before any poll loop — whenever the
topic list is empty or the broker client rejects the subscription. -/
theorem claim_C9_subscribe_fails_fast (topics : List String) (reject : Option GoError)
    (h : topics = [] ∨ reject.isSome) : (Subscribe topics reject).isSome = true := by
  rw [Subscribe]
  rcases h with h | h
  · subst h
    rfl
  · obtain ⟨e, he⟩ := Option.isSome_iff_exists.mp h
    subst he
    rw [subscribeTopics]
    by_cases htop : topics.isEmpty
    · rw [if_pos htop]
      rfl
    · rw [if_neg htop]
      rfl

theorem claim_C9_subscribe_fails_fast_witness :
    (Subscribe [] none).isSome = true ∧
    (Subscribe ["orders"] (some (GoError.errMsg "client rejected"))).isSome = true :=
  ⟨claim_C9_subscribe_fails_fast [] none (Or.inl rfl),
   claim_C9_subscribe_fails_fast ["orders"] _ (Or.inr rfl)⟩

/-- C10: when a record's handler succeeded but the commit fails, the commit
error is only logged: the loop keeps running with the committed cursor
unchanged and no commit retry, proceeding with the remaining trace. -/
theorem claim_C10_commit_error_only_logged
    (handlers : List (String × MessageHandler)) (s : ConsumerState) (m : KMessage)
    (e : GoError) (rest : List LoopEvent)
    (h : (processMessage handlers m).1 = none) :
    startRun handlers s (LoopEvent.pending (PollResult.msg m (some e)) :: rest) =
      startRun handlers
        ⟨s.committed, s.log ++ (processMessage handlers m).2 ++
          [LogEntry.errCommitting e m.topic]⟩ rest := by
  rcases hp : processMessage handlers m with ⟨o, plog⟩
  rw [hp] at h
  simp only at h
  subst h
  simp only [startRun, startStep, hp, List.append_assoc]

theorem claim_C10_commit_error_only_logged_witness :
    startRun okHandlerReg stateW
        [LoopEvent.pending (PollResult.msg msgW1 (some (GoError.errMsg "commit failed")))] =
      startRun okHandlerReg
        ⟨stateW.committed, stateW.log ++ (processMessage okHandlerReg msgW1).2 ++
          [LogEntry.errCommitting (GoError.errMsg "commit failed") msgW1.topic]⟩ [] :=
  claim_C10_commit_error_only_logged okHandlerReg stateW msgW1
    (GoError.errMsg "commit failed") [] (by decide)

end GoEda
